import Mathlib

/-!
Verification of the orion test framework for streaming contexts and
counter-mode stream ciphers, together with spec-level models of the
cipher contract and of the streaming-context contract that the framework
exercises.

The verifier algorithms are shallow embeddings of
`src/test_framework/streamcipher_interface.rs` and
`src/test_framework/stream_interface.rs`.  Bytes are modelled as `Nat`,
Rust `Result` values and panics (failed `assert!` or `unwrap()`) as
`Option` with `none` for the error and aborted cases, and the abstract
encryptor and decryptor closures as plain functions.
-/

set_option autoImplicit false

namespace Orion

/-- Maximum value of a 32-bit unsigned counter, `u32::max_value()`. -/
def u32Max : Nat := 4294967295

/-- A cipher operation, as passed to the Rust test framework: arguments
are key, nonce, initial counter, input slice and the length of the
caller-supplied output buffer; the result is `none` on error and, on
success, the list of bytes written (one per input byte; any excess space
in the output buffer is left unconstrained and is not modelled). -/
abbrev CipherFn : Type := Nat → Nat → Nat → List Nat → Nat → Option (List Nat)

/-- Embedding of `counter_increase_times` (streamcipher_interface.rs,
lines 55-72), with exact `Nat` arithmetic in place of the `f32`
arithmetic of the source (exact whenever the length fits in the `f32`
mantissa): for `a <= 64` the result is 0; otherwise the source compares
`a / 64` with its floor and returns `ceil(a / 64) - 1` when they differ
(64 does not divide `a`) and `a / 64 - 1` when they agree. -/
def counter_increase_times (a : Nat) : Nat :=
  if a ≤ 64 then 0
  else if a % 64 = 0 then a / 64 - 1
  else (a + 63) / 64 - 1

/-- Embedding of `return_if_counter_will_overflow` (streamcipher_interface.rs,
lines 75-95).  The source allocates `dst_out` of length `input.len()` and
then invokes the encryptor and the decryptor with the EMPTY input slice
`&[0u8; 0]` rather than with `input`; it returns `true` iff both calls
error.  The leading `assert!(!input.is_empty())` is kept as a hypothesis
of the theorems that use this function. -/
def return_if_counter_will_overflow (enc dec : CipherFn)
    (key nonce counter : Nat) (input : List Nat) : Bool :=
  (enc key nonce counter [] input.length).isNone &&
  (dec key nonce counter [] input.length).isNone

/-- Embedding of `encrypt_decrypt_input_empty` (streamcipher_interface.rs,
lines 97-109): with a 64-byte output buffer and counter 0, both
operations must reject the empty input; `some ()` means every assertion
passed, `none` means the verification run aborted. -/
def encrypt_decrypt_input_empty (enc dec : CipherFn) (key nonce : Nat) :
    Option Unit :=
  if (enc key nonce 0 [] 64).isNone && (dec key nonce 0 [] 64).isNone
  then some () else none

/-- Embedding of `encrypt_decrypt_out_length` (streamcipher_interface.rs,
lines 112-139): with counter 0, an empty output buffer and a buffer one
byte shorter than the input must be rejected, while a buffer exactly as
long as the input and a buffer one byte longer must both be accepted. -/
def encrypt_decrypt_out_length (enc dec : CipherFn) (key nonce : Nat)
    (input : List Nat) : Option Unit :=
  if input.length = 0 then none
  else if (enc key nonce 0 input 0).isNone
      && (dec key nonce 0 input 0).isNone
      && (enc key nonce 0 input (input.length - 1)).isNone
      && (dec key nonce 0 input (input.length - 1)).isNone
      && (enc key nonce 0 input input.length).isSome
      && (dec key nonce 0 input input.length).isSome
      && (enc key nonce 0 input (input.length + 1)).isSome
      && (dec key nonce 0 input (input.length + 1)).isSome
  then some () else none

/-- Embedding of `encrypt_decrypt_same_plaintext` (streamcipher_interface.rs,
lines 143-174).  `none` models an aborted run: a failed `assert!`, a
failed `unwrap()`, or a failed final `assert_eq!`.  When
`counter_increase_times` of the input length plus the counter leaves the
32-bit range (`checked_add` returns `None`), the source first requires
`return_if_counter_will_overflow`; it then unconditionally encrypts the
full input and decrypts the resulting ciphertext, unwrapping both
results, and compares the decryption with the input. -/
def encrypt_decrypt_same_plaintext (enc dec : CipherFn)
    (key nonce counter : Nat) (input : List Nat) : Option Unit :=
  if input.length = 0 then none
  else if u32Max < counter_increase_times input.length + counter &&
      !(return_if_counter_will_overflow enc dec key nonce counter input)
  then none
  else
    (enc key nonce counter input input.length).bind fun ct =>
      (dec key nonce counter ct input.length).bind fun pt =>
        if pt = input then some () else none

/-- Embedding of `initial_counter_overflow_err` (streamcipher_interface.rs,
lines 177-203): with the counter at its 32-bit maximum, a 65-byte input
(one full block plus one byte, so a second block is needed) must be
rejected by both operations; the output buffer has 128 bytes. -/
def initial_counter_overflow_err (enc dec : CipherFn) (key nonce : Nat) :
    Option Unit :=
  if (enc key nonce u32Max (List.replicate 65 0) 128).isNone &&
     (dec key nonce u32Max (List.replicate 65 0) 128).isNone
  then some () else none

/-- Embedding of `initial_counter_max_ok` (streamcipher_interface.rs,
lines 206-232): with the counter at its 32-bit maximum, a 64-byte input
(exactly one keystream block) must be accepted by both operations. -/
def initial_counter_max_ok (enc dec : CipherFn) (key nonce : Nat) :
    Option Unit :=
  if (enc key nonce u32Max (List.replicate 64 0) 64).isSome &&
     (dec key nonce u32Max (List.replicate 64 0) 64).isSome
  then some () else none

/-- Number of 64-byte keystream blocks needed for `n` bytes of data,
that is `ceil(n / 64)`. -/
def blocksRequired (n : Nat) : Nat := (n + 63) / 64

/-- XOR of a byte list against a keystream pad, indexed from `i`. -/
def encryptFrom (pad : Nat → Nat) : Nat → List Nat → List Nat
  | _, [] => []
  | i, b :: rest => (b ^^^ pad i) :: encryptFrom pad (i + 1) rest

/-- Modelled from the spec: the counter-mode cipher contract of sections
4.3 and 4.4 (the concrete ChaCha20 implementation is not among the
sources; only the test framework is).  A call fails on empty input, on an
output buffer shorter than the input (an exactly sized or longer buffer
is accepted, per section 4.4 and per the assertions of
`encrypt_decrypt_out_length`), and when
`initial_counter + blocks_required - 1` exceeds the 32-bit range;
otherwise it XORs the input against the keystream `ks`, whose arguments
are key, nonce, the block counter `counter + i / 64` and the offset
`i % 64` inside the block.  XOR with the keystream is an involution, so
the same function serves as both encryptor and decryptor. -/
def specCipher (ks : Nat → Nat → Nat → Nat → Nat) : CipherFn :=
  fun key nonce counter input outLen =>
    if input.length = 0 then none
    else if outLen < input.length then none
    else if u32Max < counter + (blocksRequired input.length - 1) then none
    else some (encryptFrom
      (fun i => ks key nonce (counter + i / 64) (i % 64)) 0 input)

/-- A concrete keystream used to instantiate witnesses. -/
def ks0 : Nat → Nat → Nat → Nat → Nat :=
  fun key nonce ctr i => key + nonce + ctr + i

/-- A deliberately nonconforming cipher used to witness how the verifier
behaves on implementations that ignore counter overflow: it returns the
input unchanged and rejects only empty input. -/
def toyCipher : CipherFn := fun _ _ _ input _ =>
  if input.length = 0 then none else some input

theorem encryptFrom_length (pad : Nat → Nat) (i : Nat) (l : List Nat) :
    (encryptFrom pad i l).length = l.length := by
  induction l generalizing i with
  | nil => rfl
  | cons b rest ih => simp [encryptFrom, ih]

theorem encryptFrom_encryptFrom (pad : Nat → Nat) (i : Nat) (l : List Nat) :
    encryptFrom pad i (encryptFrom pad i l) = l := by
  induction l generalizing i with
  | nil => rfl
  | cons b rest ih =>
    simp [encryptFrom, ih, Nat.xor_assoc, Nat.xor_self, Nat.xor_zero]

/-- C9: both the encrypt and the decrypt operation (the same modelled
function) reject a zero-length input with an error, for every key, nonce,
counter and output buffer size; and the `encrypt_decrypt_input_empty`
check of the verifier passes on the modelled cipher. -/
theorem C9_empty_input_rejected (ks : Nat → Nat → Nat → Nat → Nat)
    (key nonce counter outLen : Nat) :
    specCipher ks key nonce counter [] outLen = none ∧
    encrypt_decrypt_input_empty (specCipher ks) (specCipher ks) key nonce
      = some () := by
  constructor
  · rfl
  · rfl

/-- C7: whenever encryption of a plaintext succeeds with ciphertext `ct`,
decrypting `ct` with the same key, nonce, initial counter and output
buffer length succeeds and reproduces the plaintext exactly. -/
theorem C7_encrypt_decrypt_roundtrip (ks : Nat → Nat → Nat → Nat → Nat)
    (key nonce counter : Nat) (input ct : List Nat) (outLen : Nat)
    (h : specCipher ks key nonce counter input outLen = some ct) :
    specCipher ks key nonce counter ct outLen = some input := by
  unfold specCipher at h ⊢
  by_cases h0 : input.length = 0
  · simp [h0] at h
  by_cases h1 : outLen < input.length
  · simp [h0, h1] at h
  by_cases h2 : u32Max < counter + (blocksRequired input.length - 1)
  · simp [h0, h1, h2] at h
  simp only [h0, h1, h2, if_neg, if_false, if_pos, Option.some.injEq,
    if_true, reduceIte] at h
  have hlen : ct.length = input.length := by
    rw [← h, encryptFrom_length]
  rw [hlen, ← h, encryptFrom_encryptFrom]
  simp [h0, h1, h2]

/-- Witness for C7: a concrete two-byte round trip with the keystream
`ks0`, key 1, nonce 2 and counter 0. -/
theorem C7_encrypt_decrypt_roundtrip_witness :
    specCipher ks0 1 2 0 [10, 20] 2 = some [9, 16] ∧
    specCipher ks0 1 2 0 [9, 16] 2 = some [10, 20] :=
  ⟨by decide, C7_encrypt_decrypt_roundtrip ks0 1 2 0 [10, 20] [9, 16] 2 (by decide)⟩

/-- C8: with the initial counter at the 32-bit maximum, any input of
exactly 64 bytes (one block) is accepted, while any input of 65 bytes
(which needs a second block) is rejected. -/
theorem C8_counter_max_boundary (ks : Nat → Nat → Nat → Nat → Nat)
    (key nonce : Nat) (input64 input65 : List Nat)
    (h64 : input64.length = 64) (h65 : input65.length = 65) :
    (specCipher ks key nonce u32Max input64 64).isSome = true ∧
    specCipher ks key nonce u32Max input65 65 = none := by
  constructor
  · simp [specCipher, h64, blocksRequired]
  · simp [specCipher, h65, blocksRequired, u32Max]

/-- Witness for C8: concrete 64-byte and 65-byte inputs. -/
theorem C8_counter_max_boundary_witness :
    (specCipher ks0 0 0 u32Max (List.replicate 64 1) 64).isSome = true ∧
    specCipher ks0 0 0 u32Max (List.replicate 65 1) 65 = none :=
  C8_counter_max_boundary ks0 0 0 (List.replicate 64 1) (List.replicate 65 1)
    (by decide) (by decide)

/-- C2 counterexample: with key 0, nonce 0, counter 0, the one-byte input
`[7]` and an output buffer of length 2 — longer than the input, hence a
length mismatch — the modelled encryptor and decryptor (the same
function, matching the `is_ok` assertions for `dst_out_greater` at
streamcipher_interface.rs lines 136-138) succeed rather than fail. -/
theorem C2_longer_buffer_accepted :
    (2 ≠ List.length [7]) ∧
    specCipher ks0 0 0 0 [7] 2 = some [7] := by decide

/-- C2 (amended): for non-empty input and non-overflowing counter
arithmetic, the call fails exactly when the output buffer is shorter than
the input; an exactly sized or longer buffer is accepted. -/
theorem C2_out_length_validation (ks : Nat → Nat → Nat → Nat → Nat)
    (key nonce counter : Nat) (input : List Nat) (outLen : Nat)
    (h0 : input ≠ [])
    (hof : counter + (blocksRequired input.length - 1) ≤ u32Max) :
    (specCipher ks key nonce counter input outLen = none
      ↔ outLen < input.length) := by
  have hlen : input.length ≠ 0 := by
    simpa [List.length_eq_zero] using h0
  unfold specCipher
  by_cases h1 : outLen < input.length
  · simp [hlen, h1]
  · simp [hlen, h1, Nat.not_lt.mpr hof]

/-- Witness for C2: the one-byte input `[5]` with an empty output buffer
is rejected. -/
theorem C2_out_length_validation_witness :
    (specCipher ks0 0 0 0 [5] 0 = none ↔ 0 < List.length [5]) :=
  C2_out_length_validation ks0 0 0 0 [5] 0 (by decide) (by decide)

/-- C1: at the failing input (counter at the 32-bit maximum with a
65-byte input) the overflow arithmetic predicts overflow, and the
spec-conforming modelled cipher does reject the overflowing call with the
actual input — but the verifier does not establish this rejection: its
`return_if_counter_will_overflow` check invokes the encryptor and the
decryptor with the empty slice (so its `true` result only reflects the
empty-input rejection), and `encrypt_decrypt_same_plaintext` then
unwraps the full-input call, which the conforming cipher rejects, so the
whole verification run aborts (`none`). -/
theorem C1_overflow_check_misses_the_call :
    u32Max < counter_increase_times 65 + u32Max ∧
    specCipher ks0 0 0 u32Max (List.replicate 65 0) 65 = none ∧
    return_if_counter_will_overflow (specCipher ks0) (specCipher ks0)
      0 0 u32Max (List.replicate 65 0) = true ∧
    specCipher ks0 0 0 u32Max [] 65 = none ∧
    encrypt_decrypt_same_plaintext (specCipher ks0) (specCipher ks0)
      0 0 u32Max (List.replicate 65 0) = none := by decide

/-- C10: for any encryptor and decryptor, whenever the input is non-empty
and the block-count arithmetic predicts 32-bit counter overflow, a run of
`encrypt_decrypt_same_plaintext` can only pass if the encryptor and the
decryptor reject the zero-length input slice the overflow check feeds
them (not the supplied input), and if, afterwards, both the full-input
encryption with the original counter and the decryption of its result
succeed and round-trip. -/
theorem C10_overflow_path_checks_empty_input (enc dec : CipherFn)
    (key nonce counter : Nat) (input : List Nat)
    (h0 : input ≠ [])
    (hof : u32Max < counter_increase_times input.length + counter)
    (hpass : encrypt_decrypt_same_plaintext enc dec key nonce counter input
      = some ()) :
    enc key nonce counter [] input.length = none ∧
    dec key nonce counter [] input.length = none ∧
    ∃ ct, enc key nonce counter input input.length = some ct ∧
      dec key nonce counter ct input.length = some input := by
  have hlen : input.length ≠ 0 := by
    simpa [List.length_eq_zero] using h0
  unfold encrypt_decrypt_same_plaintext at hpass
  rw [if_neg hlen] at hpass
  by_cases hchk : return_if_counter_will_overflow enc dec key nonce counter input
  · rw [if_neg (by simp [hchk])] at hpass
    have hco := hchk
    unfold return_if_counter_will_overflow at hco
    rw [Bool.and_eq_true, Option.isNone_iff_eq_none, Option.isNone_iff_eq_none] at hco
    refine ⟨hco.1, hco.2, ?_⟩
    cases henc : enc key nonce counter input input.length with
    | none => simp [henc] at hpass
    | some ct =>
      simp only [henc, Option.some_bind] at hpass
      cases hdec : dec key nonce counter ct input.length with
      | none => simp [hdec] at hpass
      | some pt =>
        simp only [hdec, Option.some_bind] at hpass
        by_cases hpt : pt = input
        · exact ⟨ct, rfl, by rw [hpt] at hdec; exact hdec⟩
        · rw [if_neg hpt] at hpass; exact absurd hpass (by simp)
  · rw [if_pos (by simp [hchk, hof])] at hpass
    exact absurd hpass (by simp)

/-- Modelled from the spec (section 3, Streaming Context): a context
holds an internal buffer of unprocessed bytes (`leftover`), the running
computation state (modelled as the list of processed blocks), and the
`is_finalized` flag (`finalized`).  The concrete hash and MAC
implementations are not among the sources; this is a generic conforming
implementation whose result value is the absorbed byte sequence itself —
any result value that is a pure injective function of the absorbed bytes
behaves identically with respect to the equality checks of the
verifier. -/
structure SpecCtx where
  blocks : List (List Nat)
  leftover : List Nat
  finalized : Bool
deriving DecidableEq

/-- Splits a byte list into full blocks of size `bs` and a remainder
shorter than `bs` (the whole list when `bs = 0`). -/
def splitBlocks (bs : Nat) (l : List Nat) : List (List Nat) × List Nat :=
  if h : 0 < bs ∧ bs ≤ l.length then
    have : (List.drop bs l).length < l.length := by
      simp only [List.length_drop]; omega
    let rest := splitBlocks bs (List.drop bs l)
    (List.take bs l :: rest.1, rest.2)
  else ([], l)
termination_by l.length

theorem splitBlocks_nil (bs : Nat) : splitBlocks bs [] = ([], []) := by
  rw [splitBlocks]
  simp
  omega

theorem splitBlocks_flatten (bs : Nat) (l : List Nat) :
    (splitBlocks bs l).1.flatten ++ (splitBlocks bs l).2 = l := by
  suffices h : ∀ n (l : List Nat), l.length ≤ n →
      (splitBlocks bs l).1.flatten ++ (splitBlocks bs l).2 = l from
    h l.length l le_rfl
  intro n
  induction n with
  | zero =>
    intro l hl
    have : l = [] := by
      cases l with
      | nil => rfl
      | cons a as => simp at hl
    rw [this, splitBlocks_nil]
    rfl
  | succ n ih =>
    intro l hl
    rw [splitBlocks]
    by_cases h : 0 < bs ∧ bs ≤ l.length
    · have hd : (List.drop bs l).length ≤ n := by
        simp only [List.length_drop]; omega
      simp only [dif_pos h, List.flatten_cons, List.append_assoc, ih _ hd]
      exact List.take_append_drop bs l
    · simp [dif_neg h]

/-- All bytes absorbed by a context since the last reset. -/
def absorbed (c : SpecCtx) : List Nat := c.blocks.flatten ++ c.leftover

/-- Appends input to the internal buffer and processes the full blocks,
leaving the remainder buffered; the finalization flag is unchanged. -/
def absorb (bs : Nat) (c : SpecCtx) (input : List Nat) : SpecCtx :=
  ⟨c.blocks ++ (splitBlocks bs (c.leftover ++ input)).1,
   (splitBlocks bs (c.leftover ++ input)).2, c.finalized⟩

/-- Modelled from the spec (section 4.1): `init` returns a context with
clear flag and empty buffer. -/
def specInitCtx : SpecCtx := ⟨[], [], false⟩

/-- Modelled from the spec (section 4.1): `update` fails with a state
error if the context has been finalized and not since reset; otherwise it
absorbs the input. -/
def specUpdate (bs : Nat) (c : SpecCtx) (input : List Nat) : Option SpecCtx :=
  if c.finalized then none else some (absorb bs c input)

/-- Modelled from the spec (section 4.1): `reset` always succeeds and
returns the context to the exact state produced by `init`. -/
def specReset : SpecCtx → Option SpecCtx := fun _ => some specInitCtx

/-- Modelled from the spec (section 4.1): `finalize` fails if already
finalized since the last reset; otherwise it produces the result value (a
pure function of the absorbed bytes) and marks the context finalized. -/
def specFinalize (c : SpecCtx) : Option (List Nat × SpecCtx) :=
  if c.finalized then none
  else some (c.blocks.flatten ++ c.leftover, ⟨c.blocks, c.leftover, true⟩)

/-- Modelled from the spec (section 4.1): `one_shot` is the stateless
equivalent of `init`, `update`, `finalize`. -/
def specOneShot (bs : Nat) (input : List Nat) : Option (List Nat) :=
  (specUpdate bs specInitCtx input).bind fun c =>
    (specFinalize c).map Prod.fst

/-- A streaming-context implementation as the Rust trait
`DefaultTestableStreamingContext` sees it: the capability set
{init, update, reset, finalize, one_shot}, with `Option` for `Result`. -/
structure StreamImpl (V : Type) (C : Type) where
  init : C
  update : C → List Nat → Option C
  reset : C → Option C
  finalize : C → Option (V × C)
  one_shot : List Nat → Option V

/-- The spec-modelled streaming context packaged as an implementation of
the contract, for a given block size. -/
def specStream (bs : Nat) : StreamImpl (List Nat) SpecCtx :=
  ⟨specInitCtx, specUpdate bs, specReset, specFinalize, specOneShot bs⟩

theorem absorbed_absorb (bs : Nat) (c : SpecCtx) (input : List Nat) :
    absorbed (absorb bs c input) = absorbed c ++ input := by
  simp only [absorbed, absorb, List.flatten_append, List.append_assoc,
    splitBlocks_flatten]

theorem specOneShot_eq (bs : Nat) (input : List Nat) :
    specOneShot bs input = some input := by
  have h := splitBlocks_flatten bs input
  simp [specOneShot, specUpdate, specInitCtx, specFinalize, absorb, h]

/-- Witness for C10: the nonconforming `toyCipher` passes the verifier at
an overflow-predicting input (counter at the 32-bit maximum, 65 bytes),
and the conclusion of the theorem holds for it. -/
theorem C10_overflow_path_checks_empty_input_witness :
    toyCipher 0 0 u32Max [] (List.replicate 65 1).length = none ∧
    toyCipher 0 0 u32Max [] (List.replicate 65 1).length = none ∧
    ∃ ct, toyCipher 0 0 u32Max (List.replicate 65 1)
        (List.replicate 65 1).length = some ct ∧
      toyCipher 0 0 u32Max ct (List.replicate 65 1).length
        = some (List.replicate 65 1) :=
  C10_overflow_path_checks_empty_input toyCipher toyCipher 0 0 u32Max
    (List.replicate 65 1) (by decide) (by decide) (by decide)

/-- Byte values of the string WRONG DATA fed by the `consistency` check
of the source before a reset when the input is empty. -/
def wrongDataBytes : List Nat := [87, 82, 79, 78, 71, 32, 68, 65, 84, 65]

/-- Byte values of the string WRONG, the dummy input named by the spec
scenario for the empty-input consistency check. -/
def wrongWord : List Nat := [87, 82, 79, 78, 71]

/-- Sequence update, finalize on a fresh context of `impl`, returning
the result value (state 1 of the `consistency` check of the source). -/
def runUF {V C : Type} (impl : StreamImpl V C) (data : List Nat) :
    Option V :=
  (impl.update impl.init data).bind fun s =>
    (impl.finalize s).map Prod.fst

/-- Sequence reset, update, finalize on a fresh context (state 2). -/
def runRUF {V C : Type} (impl : StreamImpl V C) (data : List Nat) :
    Option V :=
  (impl.reset impl.init).bind fun s =>
    (impl.update s data).bind fun s =>
      (impl.finalize s).map Prod.fst

/-- Sequence update, reset, update, finalize on a fresh context
(state 3). -/
def runURUF {V C : Type} (impl : StreamImpl V C) (data : List Nat) :
    Option V :=
  (impl.update impl.init data).bind fun s =>
    (impl.reset s).bind fun s =>
      (impl.update s data).bind fun s =>
        (impl.finalize s).map Prod.fst

/-- Sequence update, finalize, reset, update, finalize on a fresh
context (state 4). -/
def runUFRUF {V C : Type} (impl : StreamImpl V C) (data : List Nat) :
    Option V :=
  (impl.update impl.init data).bind fun s =>
    (impl.finalize s).bind fun rv =>
      (impl.reset rv.2).bind fun s =>
        (impl.update s data).bind fun s =>
          (impl.finalize s).map Prod.fst

/-- Sequence init, finalize with no update at all (state 5). -/
def runF {V C : Type} (impl : StreamImpl V C) : Option V :=
  (impl.finalize impl.init).map Prod.fst

/-- Sequence init, reset, finalize with no update at all (state 6). -/
def runRF {V C : Type} (impl : StreamImpl V C) : Option V :=
  (impl.reset impl.init).bind fun s => (impl.finalize s).map Prod.fst

/-- Sequence init, update with dummy bytes, reset, finalize
(state 7). -/
def runUdRF {V C : Type} (impl : StreamImpl V C) (dummy : List Nat) :
    Option V :=
  (impl.update impl.init dummy).bind fun s =>
    (impl.reset s).bind fun s => (impl.finalize s).map Prod.fst

/-- Embedding of `consistency` (stream_interface.rs, lines 94-149): runs
the four call sequences on `data`, compares the four result values, and,
when `data` is empty, additionally runs the three sequences that never
feed real data (the third feeds WRONG DATA and then resets) and compares
their results too; `none` models a failed `unwrap` or assertion. -/
def consistency {V C : Type} [DecidableEq V] (impl : StreamImpl V C)
    (data : List Nat) : Option Unit := do
  let r1 ← runUF impl data
  let r2 ← runRUF impl data
  let r3 ← runURUF impl data
  let r4 ← runUFRUF impl data
  if r1 = r2 ∧ r2 = r3 ∧ r3 = r4 then
    if data.isEmpty then
      let r5 ← runF impl
      let r6 ← runRF impl
      let r7 ← runUdRF impl wrongDataBytes
      if r4 = r5 ∧ r5 = r6 ∧ r6 = r7 then some () else none
    else some ()
  else none

theorem runUF_spec (bs : Nat) (data : List Nat) :
    runUF (specStream bs) data = some data := by
  have h := splitBlocks_flatten bs data
  simp [runUF, specStream, specUpdate, specFinalize, specInitCtx, absorb, h]

theorem runRUF_spec (bs : Nat) (data : List Nat) :
    runRUF (specStream bs) data = some data := by
  have h := splitBlocks_flatten bs data
  simp [runRUF, specStream, specReset, specUpdate, specFinalize,
    specInitCtx, absorb, h]

theorem runURUF_spec (bs : Nat) (data : List Nat) :
    runURUF (specStream bs) data = some data := by
  have h := splitBlocks_flatten bs data
  simp [runURUF, specStream, specReset, specUpdate, specFinalize,
    specInitCtx, absorb, h]

theorem runUFRUF_spec (bs : Nat) (data : List Nat) :
    runUFRUF (specStream bs) data = some data := by
  have h := splitBlocks_flatten bs data
  simp [runUFRUF, specStream, specReset, specUpdate, specFinalize,
    specInitCtx, absorb, h]

theorem runF_spec (bs : Nat) : runF (specStream bs) = some [] := rfl

theorem runRF_spec (bs : Nat) : runRF (specStream bs) = some [] := rfl

theorem runUdRF_spec (bs : Nat) (dummy : List Nat) :
    runUdRF (specStream bs) dummy = some [] := by
  simp [runUdRF, specStream, specReset, specUpdate, specFinalize,
    specInitCtx, absorb]

theorem consistency_spec (bs : Nat) (data : List Nat) :
    consistency (specStream bs) data = some () := by
  cases data with
  | nil =>
    simp [consistency, runUF_spec, runRUF_spec, runURUF_spec, runUFRUF_spec,
      runF_spec, runRF_spec, runUdRF_spec]
  | cons a as =>
    simp [consistency, runUF_spec, runRUF_spec, runURUF_spec, runUFRUF_spec]

/-- C4: for every block size and input, the four call sequences
{update, finalize}, {reset, update, finalize},
{update, reset, update, finalize} and
{update, finalize, reset, update, finalize} on a freshly initialized
context all produce the same result value (the absorbed input); when the
input is empty, the sequences {init, finalize}, {init, reset, finalize}
and {init, update(WRONG), reset, finalize} also produce that same value;
and the embedded `consistency` check of the verifier passes on the
modelled context. -/
theorem C4_update_orderings_agree (bs : Nat) (data : List Nat) :
    runUF (specStream bs) data = some data ∧
    runRUF (specStream bs) data = some data ∧
    runURUF (specStream bs) data = some data ∧
    runUFRUF (specStream bs) data = some data ∧
    runUF (specStream bs) [] = some [] ∧
    runF (specStream bs) = some [] ∧
    runRF (specStream bs) = some [] ∧
    runUdRF (specStream bs) wrongWord = some [] ∧
    consistency (specStream bs) data = some () :=
  ⟨runUF_spec bs data, runRUF_spec bs data, runURUF_spec bs data,
    runUFRUF_spec bs data, runUF_spec bs [], runF_spec bs, runRF_spec bs,
    runUdRF_spec bs wrongWord, consistency_spec bs data⟩

/-- C5: on the modelled context, a second finalize without an intervening
reset fails, an update after finalize without reset fails, and after a
reset both update and finalize succeed again, as does another reset
(reset is idempotent). -/
theorem C5_misuse_rejection (bs : Nat) (c c1 c2 : SpecCtx)
    (v data : List Nat)
    (hfin : specFinalize c = some (v, c1))
    (hres : specReset c1 = some c2) :
    specFinalize c1 = none ∧
    specUpdate bs c1 data = none ∧
    (specUpdate bs c2 data).isSome = true ∧
    (specFinalize c2).isSome = true ∧
    (specReset c2).isSome = true := by
  unfold specFinalize at hfin
  by_cases hf : c.finalized
  · rw [if_pos hf] at hfin
    exact absurd hfin (by simp)
  · rw [if_neg hf] at hfin
    have hc1 : c1 = ⟨c.blocks, c.leftover, true⟩ := by
      have := hfin
      simp only [Option.some.injEq, Prod.mk.injEq] at this
      exact this.2.symm
    have hc2 : c2 = specInitCtx := by
      unfold specReset at hres
      simpa using hres.symm
    subst hc1
    subst hc2
    refine ⟨rfl, rfl, ?_, ?_, ?_⟩ <;>
      simp [specUpdate, specFinalize, specReset, specInitCtx]

/-- Witness for C5: the concrete lifecycle starting from the fresh
context, with block size 3 and the one-byte input. -/
theorem C5_misuse_rejection_witness :
    specFinalize ⟨[], [], true⟩ = none ∧
    specUpdate 3 ⟨[], [], true⟩ [1] = none ∧
    (specUpdate 3 specInitCtx [1]).isSome = true ∧
    (specFinalize specInitCtx).isSome = true ∧
    (specReset specInitCtx).isSome = true :=
  C5_misuse_rejection 3 specInitCtx ⟨[], [], true⟩ specInitCtx [] [1]
    (by decide) (by decide)

/-- Byte values of the string Extra fed by the leftover-boundary test of
the source when the data exceeds twice the block size. -/
def extraBytes : List Nat := [69, 120, 116, 114, 97]

/-- The update schedule of `incremental_processing_with_leftover`
(stream_interface.rs, lines 181-208) for a given block size and input
length: the whole `len`-byte data in one update, then an empty update
when `len` exceeds the block size, the five Extra bytes when `len`
exceeds twice the block size, and 256 zero bytes when `len` exceeds three
times the block size. -/
def leftoverChunks (bs len : Nat) : List (List Nat) :=
  [List.replicate len 0]
  ++ (if bs < len then [([] : List Nat)] else [])
  ++ (if bs * 2 < len then [extraBytes] else [])
  ++ (if bs * 3 < len then [List.replicate 256 0] else [])

/-- The body of one iteration of the loop of
`incremental_processing_with_leftover`: feed the chunks of the schedule
through `update`, finalize, and compare with `one_shot` of the
concatenation of all fed bytes (`other_data` of the source). -/
def leftoverCheck {V C : Type} [DecidableEq V] (impl : StreamImpl V C)
    (bs len : Nat) : Option Unit :=
  (List.foldlM impl.update impl.init (leftoverChunks bs len)).bind fun c =>
    (impl.finalize c).bind fun rv =>
      (impl.one_shot (leftoverChunks bs len).flatten).bind fun r2 =>
        if rv.1 = r2 then some () else none

/-- Embedding of `incremental_processing_with_leftover`
(stream_interface.rs, lines 181-208): the loop over every input length
from 0 to four times the block size, exclusive; the run passes iff every
iteration passes. -/
def incremental_processing_with_leftover {V C : Type} [DecidableEq V]
    (impl : StreamImpl V C) (bs : Nat) : Option Unit :=
  if (List.range (bs * 4)).all (fun len => (leftoverCheck impl bs len).isSome)
  then some () else none

theorem foldlM_update (bs : Nat) (chunks : List (List Nat)) (c : SpecCtx)
    (h : c.finalized = false) :
    ∃ c2 : SpecCtx, List.foldlM (specUpdate bs) c chunks = some c2 ∧
      c2.finalized = false ∧ absorbed c2 = absorbed c ++ chunks.flatten := by
  induction chunks generalizing c with
  | nil => exact ⟨c, by simp, h, by simp⟩
  | cons x xs ih =>
    obtain ⟨c2, h1, h2, h3⟩ := ih (absorb bs c x) (by simp [absorb, h])
    refine ⟨c2, ?_, h2, ?_⟩
    · rw [List.foldlM_cons]
      simp [specUpdate, h, h1]
    · rw [h3, absorbed_absorb]
      simp

theorem leftoverCheck_spec (bs len : Nat) :
    leftoverCheck (specStream bs) bs len = some () := by
  obtain ⟨c2, hc2, hfin, habs⟩ :=
    foldlM_update bs (leftoverChunks bs len) specInitCtx rfl
  have habs2 : c2.blocks.flatten ++ c2.leftover
      = (leftoverChunks bs len).flatten := by
    simpa [absorbed, specInitCtx] using habs
  simp [leftoverCheck, specStream, hc2, specFinalize, hfin, habs2,
    specOneShot_eq]

/-- C3 counterexample: with block size 64 and input length 129 the bytes
fed by the boundary test are the 129 data bytes, then an empty update,
then the five Extra bytes — not the data split at block-size boundaries:
the concatenation of everything fed differs from the data. -/
theorem C3_fed_bytes_differ_from_data :
    leftoverChunks 64 129 = [List.replicate 129 0, [], extraBytes] ∧
    (leftoverChunks 64 129).flatten ≠ List.replicate 129 0 := by decide

/-- C3 (amended): for every block size, the embedded
`incremental_processing_with_leftover` check passes on the modelled
context: for every input length from 0 to four times the block size
(exclusive), feeding the whole data in one update followed by the extra
updates of the schedule (an empty slice past one block size, the Extra
bytes past two, 256 zero bytes past three) and finalizing yields exactly
the `one_shot` result over the concatenation, in order, of all bytes fed
via update. -/
theorem C3_streaming_equals_one_shot (bs : Nat) :
    incremental_processing_with_leftover (specStream bs) bs = some () := by
  have h : ∀ len ∈ List.range (bs * 4),
      ((leftoverCheck (specStream bs) bs len).isSome) = true := by
    intro len _
    rw [leftoverCheck_spec]
    rfl
  simp [incremental_processing_with_leftover, List.all_eq_true.mpr h]

/-- Context after init, reset. -/
def resetSeq2 : Option SpecCtx := specReset specInitCtx

/-- Context after init, update, reset. -/
def resetSeq3 (bs : Nat) (data : List Nat) : Option SpecCtx :=
  (specUpdate bs specInitCtx data).bind specReset

/-- Context after init, update, finalize, reset. -/
def resetSeq4 (bs : Nat) (data : List Nat) : Option SpecCtx :=
  (specUpdate bs specInitCtx data).bind fun s =>
    (specFinalize s).bind fun rv => specReset rv.2

/-- C6: the contexts produced by init alone, by init and reset, by init,
update and reset, and by init, update, finalize and reset are all
structurally equal (`compare_states` asserts structural equivalence,
modelled as equality of the `SpecCtx` record): every sequence ending in
reset yields exactly the context produced by init alone. -/
theorem C6_reset_restores_fresh_state (bs : Nat) (data : List Nat) :
    resetSeq2 = some specInitCtx ∧
    resetSeq3 bs data = some specInitCtx ∧
    resetSeq4 bs data = some specInitCtx := by
  refine ⟨rfl, ?_, ?_⟩ <;>
    simp [resetSeq3, resetSeq4, specUpdate, specReset, specFinalize,
      specInitCtx, absorb]

end Orion
